import Mathlib

/-
Verification of the datapasta inference pipeline.

This file gives a shallow embedding of the core of the datapasta
repository (src/datapasta/utils.py, parser.py, formatter.py) in Lean 4
and proves properties of it.  Python strings are modelled as Lean
`String` (ASCII is assumed for character classes such as `\w`, `\d`,
`[a-zA-Z]`; the repository processes pasted ASCII tables).  Python's
float comparison `x < y * 0.6` and `count / total > 0.9` on averages of
integer data are modelled by the exact cross-multiplied integer
comparisons; the digits of `str(float(...))` output are not modelled (no
theorem below depends on them).  Python exceptions are modelled by
`Option`: a function that can raise returns `none` on the raising
inputs.
-/

namespace Datapasta

/-- Whitespace as recognised by Python `str.strip` (ASCII subset). -/
def pyIsSpace (c : Char) : Bool :=
  c == ' ' || c == '\t' || c == '\n' || c == '\r' || c == '\x0b' || c == '\x0c'

/-- Python `str.strip()`: remove leading and trailing whitespace. -/
def pyStrip (s : String) : String :=
  ⟨((s.data.dropWhile pyIsSpace).reverse.dropWhile pyIsSpace).reverse⟩

/-- Python `str.lower()` (ASCII). -/
def pyLower (s : String) : String :=
  ⟨s.data.map Char.toLower⟩

/-- Tail of a run of digits in which single underscores may appear
between digits, as accepted by Python `int`/`float` literals
(PEP 515): an underscore must be followed by a digit and may not be
leading, trailing or doubled. -/
def digitTail : List Char → Bool
  | [] => true
  | ['_'] => false
  | '_' :: c :: r => c.isDigit && digitTail r
  | c :: r => c.isDigit && digitTail r

/-- A nonempty digit run with optional internal underscores. -/
def isDigitRun (l : List Char) : Bool :=
  match l with
  | [] => false
  | c :: r => c.isDigit && digitTail r

/-- Numeric value of a digit run, skipping underscores. -/
def digitsVal (l : List Char) : Nat :=
  l.foldl (fun n c => if c.isDigit then n * 10 + (c.toNat - '0'.toNat) else n) 0

/-- Python `int(s)`: strips whitespace, allows a sign and underscores
between digits; `none` models `ValueError`. -/
def pyIntParse (s : String) : Option Int :=
  match (pyStrip s).data with
  | '+' :: r => if isDigitRun r then some (digitsVal r : Int) else none
  | '-' :: r => if isDigitRun r then some (-(digitsVal r : Int)) else none
  | r => if isDigitRun r then some (digitsVal r : Int) else none

/-- utils.is_integer: `int(s)` succeeds. -/
def is_integer (s : String) : Bool :=
  (pyIntParse s).isSome

/-- Split a char list at the first char satisfying `p`; the second
component is `none` when no such char occurs. -/
def splitAtChar (p : Char → Bool) : List Char → List Char × Option (List Char)
  | [] => ([], none)
  | c :: r =>
    if p c then ([], some r)
    else
      let (a, b) := splitAtChar p r
      (c :: a, b)

/-- Whether Python `float(s)` succeeds: optional sign, then
`inf`/`infinity`/`nan` (case-insensitive) or a decimal mantissa with
optional fraction and exponent, with PEP 515 underscores. -/
def pyFloatAccepts (s : String) : Bool :=
  let t := (pyStrip s).data
  let body := match t with
    | '+' :: r => r
    | '-' :: r => r
    | _ => t
  let low := body.map Char.toLower
  if low == "inf".data || low == "infinity".data || low == "nan".data then true
  else
    let (mant, expOpt) := splitAtChar (fun c => c == 'e' || c == 'E') body
    let mantOK :=
      let (ip, fpOpt) := splitAtChar (fun c => c == '.') mant
      match fpOpt with
      | none => isDigitRun ip
      | some fp =>
        if ip.isEmpty then isDigitRun fp
        else isDigitRun ip && (fp.isEmpty || isDigitRun fp)
    let expOK := match expOpt with
      | none => true
      | some e =>
        let e' := match e with
          | '+' :: r => r
          | '-' :: r => r
          | _ => e
        isDigitRun e'
    mantOK && expOK

/-- utils.is_float: special-cases the tokens `inf`, `-inf`, `nan` and
otherwise tries `float(s)`. -/
def is_float (s : String) : Bool :=
  if ["inf", "-inf", "nan"].contains (pyLower (pyStrip s)) then true
  else pyFloatAccepts s

/-- utils.is_boolean: membership of the lowercased stripped string in
the fixed boolean-token set. -/
def is_boolean (s : String) : Bool :=
  ["true", "false", "yes", "no", "t", "f", "y", "n", "1", "0"].contains
    (pyLower (pyStrip s))

/-- Count the maximal run of leading chars satisfying `p` and return
the remainder. -/
def countLeading (p : Char → Bool) : List Char → Nat × List Char
  | [] => (0, [])
  | c :: r =>
    if p c then
      let (n, r') := countLeading p r
      (n + 1, r')
    else (0, c :: r)

/-- Tokens of the fixed date regular expressions of utils.is_date. -/
inductive DateTok where
  | digits (lo : Nat) (hi : Nat)
  | lit (c : Char)
  | spaces
  | letters3
deriving Repr

/-- Match a full token sequence against a char list.  Maximal munch is
equivalent to the Python regexes here because in every pattern the
char classes of adjacent tokens are disjoint, and the trailing `$`
is a full-string match because the input is already stripped. -/
def matchToks : List DateTok → List Char → Bool
  | [], l => l.isEmpty
  | DateTok.lit c :: ts, l =>
    match l with
    | x :: r => x == c && matchToks ts r
    | [] => false
  | DateTok.digits lo hi :: ts, l =>
    let (n, r) := countLeading Char.isDigit l
    decide (lo ≤ n) && decide (n ≤ hi) && matchToks ts r
  | DateTok.spaces :: ts, l =>
    let (n, r) := countLeading pyIsSpace l
    decide (1 ≤ n) && matchToks ts r
  | DateTok.letters3 :: ts, l =>
    let (n, r) := countLeading Char.isAlpha l
    decide (3 ≤ n) && matchToks ts r

/-- utils.is_date: the stripped string matches one of the seven fixed
date patterns. -/
def is_date (s : String) : Bool :=
  let t := (pyStrip s).data
  matchToks [.digits 4 4, .lit '-', .digits 2 2, .lit '-', .digits 2 2] t ||
  matchToks [.digits 1 2, .lit '/', .digits 1 2, .lit '/', .digits 4 4] t ||
  matchToks [.digits 1 2, .lit '/', .digits 1 2, .lit '/', .digits 2 2] t ||
  matchToks [.digits 1 2, .lit '-', .digits 1 2, .lit '-', .digits 4 4] t ||
  matchToks [.digits 4 4, .lit '/', .digits 1 2, .lit '/', .digits 1 2] t ||
  matchToks [.digits 1 2, .spaces, .letters3, .spaces, .digits 4 4] t ||
  matchToks [.letters3, .spaces, .digits 1 2, .lit ',', .spaces, .digits 4 4] t

/-- The missing-value tokens of utils.guess_column_types and
utils.format_value_for_code. -/
def missingTokens : List String :=
  ["na", "n/a", "none", "null", ""]

/-- Per-cell type classification: the body of the voting loop of
utils.guess_column_types.  `none` means the cell is a missing token
and casts no vote; otherwise the checks run in the source order
integer, float, boolean, date, string. -/
def classify_cell (v : String) : Option String :=
  let val_str := pyStrip v
  if missingTokens.contains (pyLower val_str) then none
  else some
    (if is_integer val_str then "integer"
     else if is_float val_str then "float"
     else if is_boolean val_str then "boolean"
     else if is_date val_str then "date"
     else "string")

/-- Increment the count of key `k` in an insertion-ordered counter,
appending a fresh entry when absent (models collections.Counter). -/
def bump : List (String × Nat) → String → List (String × Nat)
  | [], k => [(k, 1)]
  | (k', n) :: rest, k =>
    if k' == k then (k', n + 1) :: rest else (k', n) :: bump rest k

/-- The vote counter built by the loop of utils.guess_column_types:
the filter to `non_empty` and the loop over it are fused into one
fold (a value failing the filter is skipped, exactly as the source's
comprehension excludes it). -/
def tally (values : List String) : List (String × Nat) :=
  values.foldl
    (fun acc v =>
      if pyStrip v == "" then acc
      else
        match classify_cell v with
        | none => acc
        | some t => bump acc t)
    []

/-- utils.guess_column_types.  `none` models the uncaught IndexError
raised by `type_counts.most_common(1)[0]` when every non-empty value
is a missing token (the counter is then empty).  The float comparison
`most_common_count / sum > 0.9` is modelled by the exact integer
comparison `9 * sum < 10 * most_common_count`.  Counter.most_common
breaks ties by insertion order, modelled by the strict fold below;
ties are never observable because two tied types cannot both exceed
90 percent. -/
def guess_column_types (values : List String) : Option String :=
  if (values.filter (fun v => !(pyStrip v == ""))).isEmpty then some "string"
  else
    match tally values with
    | [] => none
    | (t, c) :: rest =>
      if rest.isEmpty then some t
      else
        let best := rest.foldl (fun b x => if b.2 < x.2 then x else b) (t, c)
        let total := ((t, c) :: rest).foldl (fun n x => n + x.2) 0
        if 9 * total < 10 * best.2 then some best.1
        else if ((t, c) :: rest).all
            (fun x => x.1 == "integer" || x.1 == "float") then some "float"
        else some "string"

/-- Option-valued traversal used to model Python comprehensions whose
body may raise: the first raising element aborts the whole call. -/
def omapM (f : α → Option β) : List α → Option (List β)
  | [] => some []
  | a :: t =>
    match f a, omapM f t with
    | some b, some bs => some (b :: bs)
    | _, _ => none

/-- Single-cell classification `guess_column_types([val])` as used by
utils.guess_has_header on every cell of the first two rows. -/
def cellType (v : String) : Option String :=
  guess_column_types [v]

/-- The identifier regex `^[A-Za-z][A-Za-z0-9_]*$` of
utils.guess_has_header, applied by `re.match` to the raw cell.  The
final `$` of a Python regex also matches just before one trailing
newline, hence the `['\n']` case. -/
def headerPatTail : List Char → Bool
  | [] => true
  | ['\n'] => true
  | c :: r => (c.isAlphanum || c == '_') && headerPatTail r

/-- Whether a raw cell matches the identifier pattern of rule 3 of
utils.guess_has_header. -/
def headerPat (s : String) : Bool :=
  match s.data with
  | [] => false
  | c :: r => c.isAlpha && headerPatTail r

/-- Sum of the cell lengths of a row (`len(str(cell))` summed). -/
def rowLenSum (r : List String) : Nat :=
  r.foldl (fun n s => n + s.length) 0

/-- The average-length comparison of rule 4 of utils.guess_has_header:
`first_row_avg < avg_data_length * 0.6` where
`first_row_avg = sum0 / len(rows[0])` and
`avg_data_length = sumD / (len(rows[1:]) * len(rows[0]))`.
Cross-multiplying by the positive `10 * len(rows[1:]) * len(rows[0])`
(both factors are nonzero whenever the source reaches this test)
gives the exact integer comparison below. -/
def lengthRatioHeader (rows : List (List String)) : Bool :=
  match rows with
  | [] => false
  | r0 :: rest =>
    decide (10 * rest.length * rowLenSum r0 < 6 * (rest.map rowLenSum).sum)

/-- utils.guess_has_header.  `none` models the IndexError propagated
from `guess_column_types` when a cell of row 0 or row 1 is a nonempty
missing token; the per-cell classifications are computed before any
rule fires, exactly as in the source. -/
def guess_has_header : List (List String) → Option Bool
  | r0 :: r1 :: rest =>
    match omapM cellType r0, omapM cellType r1 with
    | some ts0, some ts1 =>
      if ts0.all (fun t => t == "string") &&
         ts1.any (fun t => !(t == "string")) then some true
      else if r0.all headerPat then some true
      else if 2 < (r0 :: r1 :: rest).length then
        if lengthRatioHeader (r0 :: r1 :: rest) then some true else some false
      else some false
    | _, _ => none
  | _ => some false

/-- The `\w` char class of utils.clean_column_name (ASCII). -/
def isWordChar (c : Char) : Bool :=
  c.isAlphanum || c == '_'

/-- Collapse every run of underscores to a single underscore
(`re.sub(r"_+", "_", s)`). -/
def collapseUnderscores (l : List Char) : List Char :=
  l.foldr
    (fun c acc =>
      match acc with
      | '_' :: _ => if c == '_' then acc else c :: acc
      | _ => c :: acc)
    []

/-- utils.clean_column_name: strip, replace non-word chars by
underscores, prefix `col_` when starting with a digit, collapse
underscore runs, strip trailing underscores, fall back to
`unnamed_col`. -/
def clean_column_name (name : String) : String :=
  let s := (pyStrip name).data
  let replaced := s.map (fun c => if isWordChar c then c else '_')
  let prefixed :=
    match replaced with
    | c :: _ => if c.isDigit then "col_".data ++ replaced else replaced
    | [] => []
  let collapsed := collapseUnderscores prefixed
  let trimmed := (collapsed.reverse.dropWhile (fun c => c == '_')).reverse
  if trimmed.isEmpty then "unnamed_col" else ⟨trimmed⟩

/-- Python `str.splitlines` restricted to the `\n`, `\r\n`, `\r` line
boundaries (the exotic boundaries `\v`, `\f`, `\x1c`..`\x1e`, `\x85`,
`\u2028`, `\u2029` are not modelled). -/
def pySplitlinesGo (cur : List Char) : List Char → List (List Char)
  | [] => if cur.isEmpty then [] else [cur.reverse]
  | '\n' :: cs => cur.reverse :: pySplitlinesGo [] cs
  | '\r' :: '\n' :: cs => cur.reverse :: pySplitlinesGo [] cs
  | '\r' :: cs => cur.reverse :: pySplitlinesGo [] cs
  | c :: cs => pySplitlinesGo (c :: cur) cs

/-- The lines `text.splitlines()`. -/
def pySplitlines (text : String) : List String :=
  (pySplitlinesGo [] text.data).map (fun l => (⟨l⟩ : String))

/-- Python `line.split(sep)` for a single-char separator: split at
every occurrence, keeping empty pieces; never returns `[]`. -/
def splitChar (c : Char) : List Char → List (List Char)
  | [] => [[]]
  | x :: xs =>
    if x == c then [] :: splitChar c xs
    else
      match splitChar c xs with
      | [] => [[x]]
      | y :: ys => (x :: y) :: ys

/-- The candidate separators of parser.guess_separator, in source
order (each candidate is a one-char string; we carry the char). -/
def candidateSeps : List Char :=
  [',', '\t', '|', ';']

/-- The first up-to-10 non-blank lines sampled by
parser.guess_separator. -/
def sampleLines (text : String) : List String :=
  ((pySplitlines text).filter (fun l => !(pyStrip l == ""))).take 10

/-- The per-line field counts `col_counts` of parser.guess_separator
for one candidate: lines that are blank or consist solely of the
separator are skipped. -/
def colCounts (lines : List String) (d : Char) : List Nat :=
  lines.filterMap
    (fun l =>
      if pyStrip l == "" || pyStrip l == String.mk [d] then none
      else some (splitChar d l.data).length)

/-- The consistent field count of a candidate: defined when at least
one line was counted and all counts agree (`len(set(col_counts)) == 1`
in the source). -/
def consistentCount (lines : List String) (d : Char) : Option Nat :=
  match colCounts lines d with
  | [] => none
  | c :: rest => if rest.all (fun x => x == c) then some c else none

/-- One iteration of the candidate loop of parser.guess_separator on
the pair `(best_sep, best_score)`: an inconsistent candidate is
skipped, and a consistent one replaces the best exactly when its
count strictly exceeds the best score. -/
def pickStep (lines : List String) (acc : Option Char × Nat) (d : Char) :
    Option Char × Nat :=
  match consistentCount lines d with
  | none => acc
  | some c => if acc.2 < c then (some d, c) else acc

/-- The candidate-selection loop of parser.guess_separator, starting
from `best_sep = None`, `best_score = 0`. -/
def pickBest (lines : List String) (cs : List Char) (acc : Option Char × Nat) :
    Option Char × Nat :=
  cs.foldl (pickStep lines) acc

/-- parser.guess_separator. -/
def guess_separator (text : String) : String :=
  let lines := sampleLines text
  if lines.isEmpty then ","
  else
    match (pickBest lines candidateSeps (none, 0)).1 with
    | none => ","
    | some d => String.mk [d]

/-- States of the CPython `csv.reader` parser (default dialect:
`quotechar='"'`, `doublequote=True`, no escape char, non-strict). -/
inductive CsvSt where
  | startRecord
  | startField
  | inField
  | inQuoted
  | quoteInQuoted
  | eatCrnl
deriving Repr, DecidableEq

/-- Accumulator of the csv parser: finished records (reversed), the
fields of the current record (reversed), the chars of the current
field (reversed), and the state. -/
structure CsvAcc where
  recs : List (List String)
  fields : List String
  fld : List Char
  st : CsvSt

/-- Close the current field. -/
def csvSaveField (a : CsvAcc) : CsvAcc :=
  { a with fields := (⟨a.fld.reverse⟩ : String) :: a.fields, fld := [] }

/-- Close the current record. -/
def csvEmitRec (a : CsvAcc) : CsvAcc :=
  { a with recs := a.fields.reverse :: a.recs, fields := [] }

/-- One step of the csv parser on char `c` with delimiter `d`.  The
reader feeds the parser line by line (lines split after `\n`) and
marks each line end, so an end-of-line outside a quoted field always
closes the record; `none` models the `_csv.Error` raised when data
follows a carriage return inside an unquoted line. -/
def csvStep (d : Char) (a : CsvAcc) (c : Char) : Option CsvAcc :=
  match a.st with
  | .startRecord =>
    if c == '\n' then some { csvEmitRec a with st := .startRecord }
    else if c == '\r' then some { a with st := .eatCrnl }
    else if c == '"' then some { a with st := .inQuoted }
    else if c == d then some { csvSaveField a with st := .startField }
    else some { a with fld := [c], st := .inField }
  | .startField =>
    if c == '\n' then some { csvEmitRec (csvSaveField a) with st := .startRecord }
    else if c == '\r' then some { csvSaveField a with st := .eatCrnl }
    else if c == '"' then some { a with st := .inQuoted }
    else if c == d then some { csvSaveField a with st := .startField }
    else some { a with fld := [c], st := .inField }
  | .inField =>
    if c == '\n' then some { csvEmitRec (csvSaveField a) with st := .startRecord }
    else if c == '\r' then some { csvSaveField a with st := .eatCrnl }
    else if c == d then some { csvSaveField a with st := .startField }
    else some { a with fld := c :: a.fld }
  | .inQuoted =>
    if c == '"' then some { a with st := .quoteInQuoted }
    else some { a with fld := c :: a.fld }
  | .quoteInQuoted =>
    if c == '"' then some { a with fld := '"' :: a.fld, st := .inQuoted }
    else if c == d then some { csvSaveField a with st := .startField }
    else if c == '\n' then some { csvEmitRec (csvSaveField a) with st := .startRecord }
    else if c == '\r' then some { csvSaveField a with st := .eatCrnl }
    else some { a with fld := c :: a.fld, st := .inField }
  | .eatCrnl =>
    if c == '\r' then some a
    else if c == '\n' then some { csvEmitRec a with st := .startRecord }
    else none

/-- End-of-input handling of the csv reader: a pending field or record
is closed and emitted (non-strict mode also closes an unterminated
quoted field). -/
def csvFinish (a : CsvAcc) : List (List String) :=
  match a.st with
  | .startRecord => a.recs.reverse
  | .eatCrnl => (csvEmitRec a).recs.reverse
  | _ => (csvEmitRec (csvSaveField a)).recs.reverse

/-- `csv.reader(io.StringIO(text), delimiter=sep)` materialised to a
list of records; `none` models a raised error, including the
`TypeError` for a delimiter that is not exactly one char. -/
def csvRows (text : String) (sep : String) : Option (List (List String)) :=
  match sep.data with
  | [d] =>
    (text.data.foldlM (csvStep d) ⟨[], [], [], .startRecord⟩).map csvFinish
  | _ => none

/-- The parsed-table record returned by parser.parse_text: column
names, data rows and per-column types. -/
structure ParsedTable where
  columns : List String
  data : List (List String)
  types : List String
deriving Repr, DecidableEq

/-- The minimum row length, which is the number of tuples produced by
Python `zip(*data)` (`0` for no rows). -/
def minRowLen : List (List String) → Nat
  | [] => 0
  | r :: rest => rest.foldl (fun m row => min m row.length) r.length

/-- Python `list(zip(*data))`: transpose truncated to the shortest
row. -/
def pyZipTranspose (data : List (List String)) : List (List String) :=
  (List.range (minRowLen data)).map (fun i => data.map (fun row => row.getD i ""))

/-- The separator resolution of parser.parse_text: the explicit
separator when given, else the guess. -/
def resolveSep (text : String) (separator : Option String) : String :=
  separator.getD (guess_separator text)

/-- The column names chosen by parser.parse_text: cleaned first-row
cells when a header is used (header flag set and more than one row),
else ordinal names `V1, V2, ...` sized to the first row. -/
def tableNames (rows : List (List String)) (hdr : Bool) : List String :=
  if hdr && decide (1 < rows.length) then (rows.headD []).map clean_column_name
  else (List.range (rows.headD []).length).map (fun i => "V" ++ toString (i + 1))

/-- The data rows chosen by parser.parse_text: all rows, or all but
the header row. -/
def tableData (rows : List (List String)) (hdr : Bool) : List (List String) :=
  if hdr && decide (1 < rows.length) then rows.tail else rows

/-- The final assembly of parser.parse_text: transpose the data and
infer one type per transposed column (`none` propagates the
IndexError of guess_column_types). -/
def assembleTable (rows : List (List String)) (hdr : Bool) : Option ParsedTable :=
  (omapM guess_column_types (pyZipTranspose (tableData rows hdr))).map
    (fun types => ⟨tableNames rows hdr, tableData rows hdr, types⟩)

/-- The header resolution of parser.parse_text: the explicit override
when given, else the heuristic (which may raise, hence Option). -/
def resolveHeader (rows : List (List String)) : Option Bool → Option Bool
  | some b => some b
  | none => guess_has_header rows

/-- parser.parse_text.  `none` models an uncaught exception (csv
error, or IndexError from guess_column_types); the unused local
`lines = text.strip().split("\n")` of the source is dead code and
omitted. -/
def parse_text (text : String) (separator : Option String)
    (header : Option Bool) : Option ParsedTable :=
  if pyStrip text == "" then some ⟨[], [], []⟩
  else
    (csvRows text (resolveSep text separator)).bind (fun rows0 =>
      if (rows0.filter (fun r => !r.isEmpty)).isEmpty then some ⟨[], [], []⟩
      else
        (resolveHeader (rows0.filter (fun r => !r.isEmpty)) header).bind
          (fun hdr => assembleTable (rows0.filter (fun r => !r.isEmpty)) hdr))

/-- utils.format_value_for_code restricted to cell values that are a
string or Python `None` (the only values the repository passes).
The missing check fires before the type dispatch; the textual digits
of `str(float(...))` are abstracted by `pyFloatRepr` (no theorem
depends on them). -/
def pyFloatRepr (s : String) : String :=
  pyStrip s

/-- utils.format_value_for_code. -/
def format_value_for_code : Option String → String → String
  | none, _ => "None"
  | some s, val_type =>
    if missingTokens.contains (pyLower (pyStrip s)) then "None"
    else
      let val_str := pyStrip s
      if val_type == "integer" then
        match pyIntParse val_str with
        | some n => toString n
        | none => "None"
      else if val_type == "float" then
        if pyFloatAccepts val_str then pyFloatRepr val_str else "None"
      else if val_type == "boolean" then
        let low := pyLower val_str
        if ["true", "yes", "y", "t", "1"].contains low then "True"
        else if ["false", "no", "n", "f", "0"].contains low then "False"
        else "None"
      else if val_type == "date" then "\"" ++ val_str ++ "\""
      else "\"" ++ val_str ++ "\""

/-- The list of formatted literals built by formatter.format_as_vector
before joining: the rows flattened row-major, each cell typed by
`types[idx % len(types)]`.  `none` models the ZeroDivisionError of
`idx % 0` when `types` is empty while data cells exist. -/
def formatAsVectorValues (pd : ParsedTable) : Option (List String) :=
  if pd.data.isEmpty then some []
  else
    let flattened := pd.data.flatten
    if pd.types.isEmpty && !flattened.isEmpty then none
    else
      let allTypes := (List.range flattened.length).map
        (fun idx => pd.types.getD (idx % pd.types.length) "")
      some ((flattened.zip allTypes).map
        (fun p => format_value_for_code (some p.1) p.2))

/-- formatter.format_as_vector: the joined code text. -/
def formatAsVector (pd : ParsedTable) (vertical : Bool) : Option String :=
  if pd.data.isEmpty then some "[]"
  else
    (formatAsVectorValues pd).map (fun fv =>
      if vertical then "[\n    " ++ String.intercalate ",\n    " fv ++ "\n]"
      else "[" ++ String.intercalate ", " fv ++ "]")

/-- The `values_str` display of one column in formatter.format_as_polars
(and the identical format_as_pandas): columns longer than 10 show the
first five and last three literals around an ellipsis marker. -/
def polarsValuesStr (formattedValues : List String) : String :=
  if 10 < formattedValues.length then
    String.intercalate ", " (formattedValues.take 5) ++ ", ..., " ++
      String.intercalate ", " (formattedValues.drop (formattedValues.length - 3))
  else String.intercalate ", " formattedValues

/-- Modelled from the spec: total column typing per section 4.3, whose
column-level resolution says a column that is entirely missing
defaults to `string` (the `guess_column_types` of utils.py instead
raises there, see the C4 analysis). -/
def guessColumnTypesTotal (values : List String) : String :=
  (guess_column_types values).getD "string"

/-- Modelled from the spec: the header heuristic of section 4.2 built
on the total single-cell classification. -/
def guessHasHeaderTotal (rows : List (List String)) : Bool :=
  match rows with
  | r0 :: r1 :: rest =>
    let ts0 := r0.map (fun v => guessColumnTypesTotal [v])
    let ts1 := r1.map (fun v => guessColumnTypesTotal [v])
    if ts0.all (fun t => t == "string") &&
       ts1.any (fun t => !(t == "string")) then true
    else if r0.all headerPat then true
    else if 2 < (r0 :: r1 :: rest).length then
      lengthRatioHeader (r0 :: r1 :: rest)
    else false
  | _ => false

/-- Modelled from the spec: the assembly step of `parse_table` with
the caller-supplied row cap of section 5 applied to the data rows
before the column-wise transpose and type inference. -/
def assembleCapped (rows : List (List String)) (hdr : Bool) (max_rows : Nat) :
    ParsedTable :=
  ⟨tableNames rows hdr, (tableData rows hdr).take max_rows,
   (pyZipTranspose ((tableData rows hdr).take max_rows)).map guessColumnTypesTotal⟩

/-- Modelled from the spec: `parse_table(text, delimiter?, max_rows?,
has_header?)` of sections 5 and 6, whose definition is absent from
src/ (main.py calls it with a `max_rows` cap).  Per section 5 the cap
truncates the number of data rows considered, before column-wise
processing, and per section 4.5 the remaining steps are those of
parse_text, built on the total spec versions of the heuristics. -/
def parse_table (text : String) (separator : Option String) (max_rows : Nat)
    (header : Option Bool) : Option ParsedTable :=
  if pyStrip text == "" then some ⟨[], [], []⟩
  else
    (csvRows text (resolveSep text separator)).bind (fun rows0 =>
      if (rows0.filter (fun r => !r.isEmpty)).isEmpty then some ⟨[], [], []⟩
      else
        some (assembleCapped (rows0.filter (fun r => !r.isEmpty))
          (header.getD (guessHasHeaderTotal (rows0.filter (fun r => !r.isEmpty))))
          max_rows))

/-! ### Helper lemmas -/

theorem omapM_length {α β : Type} {f : α → Option β} :
    ∀ {l : List α} {ys : List β}, omapM f l = some ys → ys.length = l.length := by
  intro l
  induction l with
  | nil => intro ys h; simp [omapM] at h; simp [← h]
  | cons a t ih =>
    intro ys h
    unfold omapM at h
    cases hfa : f a with
    | none => rw [hfa] at h; simp at h
    | some b =>
      rw [hfa] at h
      cases ht : omapM f t with
      | none => rw [ht] at h; simp at h
      | some bs =>
        rw [ht] at h
        simp at h
        subst h
        simp [ih ht]

theorem omapM_isSome {α β : Type} {f : α → Option β} :
    ∀ {l : List α}, (∀ a ∈ l, (f a).isSome) → ∃ ys, omapM f l = some ys := by
  intro l
  induction l with
  | nil => intro _; exact ⟨[], rfl⟩
  | cons a t ih =>
    intro h
    obtain ⟨b, hb⟩ := Option.isSome_iff_exists.mp (h a (List.mem_cons_self a t))
    obtain ⟨bs, hbs⟩ := ih (fun x hx => h x (List.mem_cons_of_mem a hx))
    exact ⟨b :: bs, by unfold omapM; rw [hb, hbs]⟩

theorem splitChar_ne_nil (c : Char) (l : List Char) : splitChar c l ≠ [] := by
  cases l with
  | nil => simp [splitChar]
  | cons x xs =>
    unfold splitChar
    by_cases h : x == c
    · simp [h]
    · simp [h]
      cases splitChar c xs <;> simp

theorem consistentCount_pos {lines : List String} {d : Char} {c : Nat}
    (h : consistentCount lines d = some c) : 1 ≤ c := by
  unfold consistentCount at h
  split at h
  next => simp at h
  next c0 rest heq =>
    split at h
    next =>
      have hc0 : c = c0 := (Option.some.inj h).symm
      have hmem : c0 ∈ colCounts lines d := by
        rw [heq]; exact List.mem_cons_self c0 rest
      unfold colCounts at hmem
      obtain ⟨l, _, hl⟩ := List.mem_filterMap.mp hmem
      by_cases hskip : pyStrip l == "" || pyStrip l == String.mk [d]
      · rw [if_pos hskip] at hl; simp at hl
      · rw [if_neg hskip] at hl
        have hlen : c0 = (splitChar d l.data).length := by simpa using hl.symm
        subst hc0
        rw [hlen]
        exact List.length_pos.mpr (splitChar_ne_nil d l.data)
    next => simp at h

theorem foldlMin_const (n : Nat) :
    ∀ (l : List (List String)) (a : Nat), (∀ r ∈ l, r.length = n) →
      l.foldl (fun m row => min m row.length) a = if l.isEmpty then a else min a n := by
  intro l
  induction l with
  | nil => intro a _; simp
  | cons r rest ih =>
    intro a h
    have hr : r.length = n := h r (List.mem_cons_self r rest)
    have hrest : ∀ x ∈ rest, x.length = n :=
      fun x hx => h x (List.mem_cons_of_mem r hx)
    simp only [List.foldl_cons, hr]
    rw [ih (min a n) hrest]
    by_cases he : rest.isEmpty <;> simp [he, Nat.min_assoc]

theorem minRowLen_const {n : Nat} {l : List (List String)}
    (h : ∀ r ∈ l, r.length = n) (hne : l ≠ []) : minRowLen l = n := by
  cases l with
  | nil => exact absurd rfl hne
  | cons r rest =>
    have hr : r.length = n := h r (List.mem_cons_self r rest)
    have hrest : ∀ x ∈ rest, x.length = n :=
      fun x hx => h x (List.mem_cons_of_mem r hx)
    show rest.foldl (fun m row => min m row.length) r.length = n
    rw [foldlMin_const n rest r.length hrest, hr]
    by_cases he : rest.isEmpty <;> simp [he]

theorem sum_const_lengths {n : Nat} :
    ∀ {l : List (List String)}, (∀ r ∈ l, r.length = n) →
      (l.map List.length).sum = l.length * n := by
  intro l
  induction l with
  | nil => intro _; simp
  | cons r rest ih =>
    intro h
    have hr : r.length = n := h r (List.mem_cons_self r rest)
    have hrest : ∀ x ∈ rest, x.length = n :=
      fun x hx => h x (List.mem_cons_of_mem r hx)
    simp [hr, ih hrest, Nat.succ_mul, Nat.add_comm]

theorem getD_mem_of_lt {r : List String} {i : Nat} (h : i < r.length) :
    r.getD i "" ∈ r := by
  cases hq : r.get? i with
  | none => exact absurd (List.get?_eq_none.mp hq) (Nat.not_le.mpr h)
  | some x =>
    have hx : r[i]? = some x := by rw [← List.get?_eq_getElem?]; exact hq
    have : r.getD i "" = x := by simp [List.getD, hx]
    rw [this]
    exact List.get?_mem hq

theorem pickStep_of_none {lines : List String} {d : Char}
    {acc : Option Char × Nat} (h : consistentCount lines d = none) :
    pickStep lines acc d = acc := by
  simp [pickStep, h]

theorem pickStep_of_lt {lines : List String} {d : Char} {c : Nat}
    {acc : Option Char × Nat} (h : consistentCount lines d = some c)
    (hlt : acc.2 < c) : pickStep lines acc d = (some d, c) := by
  simp [pickStep, h, hlt]

theorem pickStep_of_ge {lines : List String} {d : Char} {c : Nat}
    {acc : Option Char × Nat} (h : consistentCount lines d = some c)
    (hge : ¬ acc.2 < c) : pickStep lines acc d = acc := by
  simp [pickStep, h, hge]

theorem pickBest_invariant (lines : List String) :
    ∀ (cs : List Char) (acc : Option Char × Nat),
      (∀ d, acc.1 = some d → consistentCount lines d = some acc.2) →
      (∀ d, (pickBest lines cs acc).1 = some d →
          consistentCount lines d = some (pickBest lines cs acc).2) ∧
      acc.2 ≤ (pickBest lines cs acc).2 ∧
      (∀ d ∈ cs, ∀ c, consistentCount lines d = some c →
          c ≤ (pickBest lines cs acc).2) ∧
      ((pickBest lines cs acc).1 = none → acc.1 = none ∧
          ∀ d ∈ cs, ∀ c, consistentCount lines d = some c → c ≤ acc.2) ∧
      (∀ d, (pickBest lines cs acc).1 = some d → acc.1 = some d ∨ d ∈ cs) := by
  intro cs
  induction cs with
  | nil =>
    intro acc hbase
    refine ⟨fun d hd => hbase d hd, Nat.le_refl _,
      fun d hd => absurd hd (List.not_mem_nil d),
      fun h => ⟨h, fun d hd => absurd hd (List.not_mem_nil d)⟩,
      fun d hd => Or.inl hd⟩
  | cons d0 ds ih =>
    intro acc hbase
    have hcons : pickBest lines (d0 :: ds) acc =
        pickBest lines ds (pickStep lines acc d0) := rfl
    cases hcc : consistentCount lines d0 with
    | none =>
      rw [hcons, pickStep_of_none hcc]
      obtain ⟨i1, i2, i3, i4, i5⟩ := ih acc hbase
      refine ⟨i1, i2, ?_, ?_, ?_⟩
      · intro d hd c hc
        rcases List.mem_cons.mp hd with rfl | hmem
        · rw [hcc] at hc; exact absurd hc (by simp)
        · exact i3 d hmem c hc
      · intro h
        obtain ⟨hb, hrest⟩ := i4 h
        refine ⟨hb, fun d hd c hc => ?_⟩
        rcases List.mem_cons.mp hd with rfl | hmem
        · rw [hcc] at hc; exact absurd hc (by simp)
        · exact hrest d hmem c hc
      · intro d hd
        rcases i5 d hd with h | h
        · exact Or.inl h
        · exact Or.inr (List.mem_cons_of_mem d0 h)
    | some c0 =>
      by_cases hlt : acc.2 < c0
      · rw [hcons, pickStep_of_lt hcc hlt]
        have hbase' : ∀ d, (some d0, c0).1 = some d →
            consistentCount lines d = some (some d0, c0).2 := by
          intro d hd
          have : d0 = d := Option.some.inj hd
          exact this ▸ hcc
        obtain ⟨i1, i2, i3, i4, i5⟩ := ih (some d0, c0) hbase'
        refine ⟨i1, Nat.le_trans (Nat.le_of_lt hlt) i2, ?_, ?_, ?_⟩
        · intro d hd c hc
          rcases List.mem_cons.mp hd with rfl | hmem
          · rw [hcc] at hc
            exact (Option.some.inj hc) ▸ i2
          · exact i3 d hmem c hc
        · intro h
          obtain ⟨hb, -⟩ := i4 h
          exact absurd hb (by simp)
        · intro d hd
          rcases i5 d hd with h | h
          · exact Or.inr (List.mem_cons.mpr (Or.inl (Option.some.inj h).symm))
          · exact Or.inr (List.mem_cons_of_mem d0 h)
      · rw [hcons, pickStep_of_ge hcc hlt]
        obtain ⟨i1, i2, i3, i4, i5⟩ := ih acc hbase
        have hc0le : c0 ≤ acc.2 := Nat.le_of_not_lt hlt
        refine ⟨i1, i2, ?_, ?_, ?_⟩
        · intro d hd c hc
          rcases List.mem_cons.mp hd with rfl | hmem
          · rw [hcc] at hc
            exact (Option.some.inj hc) ▸ (Nat.le_trans hc0le i2)
          · exact i3 d hmem c hc
        · intro h
          obtain ⟨hb, hrest⟩ := i4 h
          refine ⟨hb, fun d hd c hc => ?_⟩
          rcases List.mem_cons.mp hd with rfl | hmem
          · rw [hcc] at hc
            exact (Option.some.inj hc) ▸ hc0le
          · exact hrest d hmem c hc
        · intro d hd
          rcases i5 d hd with h | h
          · exact Or.inl h
          · exact Or.inr (List.mem_cons_of_mem d0 h)

/-! ### Claims -/

/-- C1: per-cell classification tests integer before float before
boolean before date before string; `["1","2","3"]` resolves to
integer; `["1","2.5","3"]` votes exactly integer and float and the
widening rule resolves it to float; in `["true","false","1"]` the cell
`"1"` is a boolean token yet classifies as integer, the votes split
boolean 2, integer 1, the leader holds no more than 90 percent, the
vote set is not inside the integer/float pair, and the column resolves
to string. -/
theorem c1_type_inference_order :
    guess_column_types ["1", "2", "3"] = some "integer" ∧
    tally ["1", "2.5", "3"] = [("integer", 2), ("float", 1)] ∧
    guess_column_types ["1", "2.5", "3"] = some "float" ∧
    is_boolean "1" = true ∧
    classify_cell "1" = some "integer" ∧
    tally ["true", "false", "1"] = [("boolean", 2), ("integer", 1)] ∧
    ¬ (9 * (2 + 1) < 10 * 2) ∧
    ([("boolean", 2), ("integer", 1)].all
      (fun x => x.1 == "integer" || x.1 == "float")) = false ∧
    guess_column_types ["true", "false", "1"] = some "string" := by
  decide

/-- C4 (code bug): a column whose cells are all nonempty missing
tokens makes the vote counter empty, and the source then evaluates
`type_counts.most_common(1)[0]`, raising IndexError instead of
returning the documented "string" (modelled by `none`); only a column
of empty or whitespace-only cells returns "string" via the
`non_empty` guard. -/
theorem c4_all_missing_column_crash :
    guess_column_types ["NA"] = none ∧
    guess_column_types ["NA", "n/a", "null"] = none ∧
    guess_column_types ["", "   "] = some "string" := by
  decide

/-- C6: in `["1","NA","3"]` the NA cell casts no vote and the column
resolves to integer; `format_value_for_code` renders the NA cell as
the literal `None` whatever column type tag is passed, and the
flat-vector rendering of the column shows exactly that. -/
theorem c6_na_excluded_and_none :
    guess_column_types ["1", "NA", "3"] = some "integer" ∧
    (∀ valType : String, format_value_for_code (some "NA") valType = "None") ∧
    formatAsVectorValues ⟨["V1"], [["1"], ["NA"], ["3"]], ["integer"]⟩ =
      some ["1", "None", "3"] := by
  refine ⟨by decide, fun valType => rfl, by decide⟩

/-- C3 counterexample: `parse_text` applied to `"1,2\n3"` with comma
separator returns two column names but a single type, and the data
rows keep their ragged lengths 2 and 1 — the rectangularity invariant
fails (no padding or truncation of rows happens). -/
theorem c3_ragged_counterexample :
    (parse_text "1,2\n3" (some ",") none).map ParsedTable.columns =
      some ["V1", "V2"] ∧
    (parse_text "1,2\n3" (some ",") none).map ParsedTable.types =
      some ["integer"] ∧
    (parse_text "1,2\n3" (some ",") none).map (fun pt => pt.data.map List.length) =
      some [2, 1] := by
  decide

/-- C5 counterexample: for the 2-row input `[["1"],["2222222222"]]`
rules 1 to 3 do not fire and the row-0 average length (1) is far
below 60 percent of the data average (10), yet the source returns
header = false because the average-length comparison only runs when
there are strictly more than 2 rows. -/
theorem c5_two_row_counterexample :
    guess_has_header [["1"], ["2222222222"]] = some false ∧
    lengthRatioHeader [["1"], ["2222222222"]] = true := by
  decide

/-- C5 (amended): when the per-cell classifications of rows 0 and 1
succeed, rules 2 and 3 do not fire, and there are at least 3 rows
(the source only compares averages for strictly more than 2 rows;
with exactly 2 rows it returns false without comparing), the result
is exactly the 60-percent average-length comparison. -/
theorem c5_rule4_length_ratio (r0 r1 : List String) (rest : List (List String))
    (ts0 ts1 : List String)
    (h0 : omapM cellType r0 = some ts0)
    (h1 : omapM cellType r1 = some ts1)
    (hrule2 : (ts0.all (fun t => t == "string") &&
               ts1.any (fun t => !(t == "string"))) = false)
    (hrule3 : r0.all headerPat = false)
    (hrest : rest ≠ []) :
    guess_has_header (r0 :: r1 :: rest) =
      some (lengthRatioHeader (r0 :: r1 :: rest)) := by
  have hlen : 2 < (r0 :: r1 :: rest).length := by
    simp only [List.length_cons]
    have : 0 < rest.length := List.length_pos.mpr hrest
    omega
  simp only [guess_has_header]
  rw [h0, h1]
  simp only [hrule2, hrule3, Bool.false_eq_true, if_false, if_pos hlen]
  cases lengthRatioHeader (r0 :: r1 :: rest) <;> simp

/-- Witness for c5_rule4_length_ratio at a concrete 3-row input. -/
theorem c5_rule4_length_ratio_witness :
    guess_has_header [["1"], ["22"], ["333"]] =
      some (lengthRatioHeader [["1"], ["22"], ["333"]]) :=
  c5_rule4_length_ratio ["1"] ["22"] [["333"]] ["integer"] ["integer"]
    (by decide) (by decide) (by decide) (by decide) (by decide)

/-- C10: for a non-missing cell of a string- or date-typed column,
format_value_for_code returns the stripped cell text wrapped verbatim
in double quotes, with no escaping of quotes or backslashes in the
cell text. -/
theorem c10_string_date_no_escaping (s : String)
    (h : missingTokens.contains (pyLower (pyStrip s)) = false) :
    format_value_for_code (some s) "string" = "\"" ++ pyStrip s ++ "\"" ∧
    format_value_for_code (some s) "date" = "\"" ++ pyStrip s ++ "\"" := by
  have hneg : ¬ (missingTokens.contains (pyLower (pyStrip s)) = true) := by
    rw [h]; exact Bool.false_ne_true
  constructor
  · simp only [format_value_for_code]
    rw [if_neg hneg]
    rfl
  · simp only [format_value_for_code]
    rw [if_neg hneg]
    rfl

/-- Witness for c10_string_date_no_escaping on a cell containing both
a double quote and a backslash. -/
theorem c10_string_date_no_escaping_witness :
    missingTokens.contains (pyLower (pyStrip "a\"b\\c")) = false ∧
    (format_value_for_code (some "a\"b\\c") "string" =
        "\"" ++ pyStrip "a\"b\\c" ++ "\"" ∧
      format_value_for_code (some "a\"b\\c") "date" =
        "\"" ++ pyStrip "a\"b\\c" ++ "\"") :=
  ⟨by decide, c10_string_date_no_escaping "a\"b\\c" (by decide)⟩

/-- C7: for a ParsedTable satisfying the rectangularity invariant,
the flat-vector rendering emits exactly rows times columns literals,
while the dataframe-style per-column display string truncates any
column of more than 10 literals around an ellipsis marker. -/
theorem c7_vector_no_loss :
    (∀ pd : ParsedTable,
      (∀ row ∈ pd.data, row.length = pd.columns.length) →
      pd.types.length = pd.columns.length →
      ∃ vs, formatAsVectorValues pd = some vs ∧
        vs.length = pd.data.length * pd.columns.length) ∧
    (∀ fv : List String, 10 < fv.length →
      ∃ pre post, polarsValuesStr fv = pre ++ ", ..., " ++ post) := by
  constructor
  · intro pd hrow htypes
    unfold formatAsVectorValues
    by_cases hd : pd.data.isEmpty
    · refine ⟨[], by simp [hd], ?_⟩
      have : pd.data = [] := List.isEmpty_iff.mp hd
      simp [this]
    · rw [if_neg hd]
      have hflat : pd.data.flatten.length = pd.data.length * pd.columns.length := by
        rw [List.length_flatten]
        exact sum_const_lengths hrow
      have hguard : (pd.types.isEmpty && !pd.data.flatten.isEmpty) = false := by
        by_cases hf : pd.data.flatten.isEmpty
        · simp [hf]
        · have hne : pd.data.flatten ≠ [] := fun hnil => hf (by simp [hnil])
          obtain ⟨x, hx⟩ := List.exists_mem_of_ne_nil _ hne
          obtain ⟨row, hrowmem, hxrow⟩ := List.mem_flatten.mp hx
          have hrowne : row ≠ [] := fun hnil => by simp [hnil] at hxrow
          have hcols : 0 < pd.columns.length := by
            rw [← hrow row hrowmem]
            exact List.length_pos.mpr hrowne
          have : pd.types ≠ [] := by
            intro hnil
            rw [hnil] at htypes
            simp at htypes
            omega
          simp [this]
      simp only [hguard, Bool.false_eq_true, if_false]
      refine ⟨_, rfl, ?_⟩
      rw [List.length_map, List.length_zip, List.length_map, List.length_range,
        Nat.min_self, hflat]
  · intro fv h
    unfold polarsValuesStr
    rw [if_pos h]
    exact ⟨_, _, rfl⟩

/-- Witness for c7_vector_no_loss: a 2-by-1 table and an 11-element
column display. -/
theorem c7_vector_no_loss_witness :
    (∃ vs, formatAsVectorValues ⟨["V1"], [["1"], ["2"]], ["integer"]⟩ = some vs ∧
      vs.length =
        (⟨["V1"], [["1"], ["2"]], ["integer"]⟩ : ParsedTable).data.length *
          (⟨["V1"], [["1"], ["2"]], ["integer"]⟩ : ParsedTable).columns.length) ∧
    (∃ pre post,
      polarsValuesStr ["1", "2", "3", "4", "5", "6", "7", "8", "9", "10", "11"] =
        pre ++ ", ..., " ++ post) :=
  ⟨c7_vector_no_loss.1 ⟨["V1"], [["1"], ["2"]], ["integer"]⟩ (by decide) (by decide),
   c7_vector_no_loss.2 ["1", "2", "3", "4", "5", "6", "7", "8", "9", "10", "11"]
     (by decide)⟩

/-- C2: guess_separator samples up to the first 10 non-blank lines
(see `sampleLines`); with no non-blank lines it returns comma; when no
candidate is consistent it returns comma; and when some candidate in
the comma/tab/pipe/semicolon set is consistent, the returned
separator is a consistent candidate whose field count is maximal
among all consistent candidates. -/
theorem c2_guess_separator_spec (text : String) :
    (sampleLines text = [] → guess_separator text = ",") ∧
    ((∀ d ∈ candidateSeps, consistentCount (sampleLines text) d = none) →
        guess_separator text = ",") ∧
    (∀ d ∈ candidateSeps, ∀ c, consistentCount (sampleLines text) d = some c →
        ∃ d' c', d' ∈ candidateSeps ∧ guess_separator text = String.mk [d'] ∧
          consistentCount (sampleLines text) d' = some c' ∧
          ∀ e ∈ candidateSeps, ∀ ce,
            consistentCount (sampleLines text) e = some ce → ce ≤ c') := by
  obtain ⟨i1, i2, i3, i4, i5⟩ :=
    pickBest_invariant (sampleLines text) candidateSeps (none, 0)
      (fun d hd => by simp at hd)
  refine ⟨?_, ?_, ?_⟩
  · intro h
    simp [guess_separator, h]
  · intro hall
    have hnone : (pickBest (sampleLines text) candidateSeps (none, 0)).1 = none := by
      cases hp : (pickBest (sampleLines text) candidateSeps (none, 0)).1 with
      | none => rfl
      | some d =>
        rcases i5 d hp with hbad | hmem
        · simp at hbad
        · have hcd := i1 d hp
          rw [hall d hmem] at hcd
          exact absurd hcd (by simp)
    by_cases hemp : (sampleLines text).isEmpty
    · simp [guess_separator, hemp]
    · simp [guess_separator, hemp, hnone]
  · intro d hd c hc
    have hpos : 1 ≤ c := consistentCount_pos hc
    cases hp : (pickBest (sampleLines text) candidateSeps (none, 0)).1 with
    | none =>
      obtain ⟨-, hforall⟩ := i4 hp
      have := hforall d hd c hc
      omega
    | some d' =>
      have hcc' := i1 d' hp
      have hmem : d' ∈ candidateSeps := by
        rcases i5 d' hp with hbad | hm
        · simp at hbad
        · exact hm
      have hemp : ¬ (sampleLines text).isEmpty = true := by
        intro habs
        rw [List.isEmpty_iff.mp habs] at hc
        simp [consistentCount, colCounts] at hc
      refine ⟨d', (pickBest (sampleLines text) candidateSeps (none, 0)).2,
        hmem, ?_, hcc', fun e he ce hce => i3 e he ce hce⟩
      simp [guess_separator, hemp, hp]

/-- Witness for c2_guess_separator_spec: on `"a;b\nc;d"` the
semicolon candidate is consistent with 2 fields. -/
theorem c2_guess_separator_spec_witness :
    (';' ∈ candidateSeps) ∧
    consistentCount (sampleLines "a;b\nc;d") ';' = some 2 ∧
    (∃ d' c', d' ∈ candidateSeps ∧
      guess_separator "a;b\nc;d" = String.mk [d'] ∧
      consistentCount (sampleLines "a;b\nc;d") d' = some c' ∧
      ∀ e ∈ candidateSeps, ∀ ce,
        consistentCount (sampleLines "a;b\nc;d") e = some ce → ce ≤ c') :=
  ⟨by decide, by decide,
   (c2_guess_separator_spec "a;b\nc;d").2.2 ';' (by decide) 2 (by decide)⟩

theorem obind_some {α β : Type} (a : α) (f : α → Option β) :
    (some a).bind f = f a := rfl

theorem obind_none {α β : Type} (f : α → Option β) :
    (none : Option α).bind f = none := rfl

theorem tableData_sub (rows : List (List String)) (hdr : Bool) :
    ∀ r ∈ tableData rows hdr, r ∈ rows := by
  unfold tableData
  split
  · exact fun r hr => List.mem_of_mem_tail hr
  · exact fun r hr => hr

theorem tableData_ne_nil {rows : List (List String)} {hdr : Bool}
    (hne : rows ≠ []) : tableData rows hdr ≠ [] := by
  unfold tableData
  split
  next hcond =>
    have h1 : 1 < rows.length :=
      of_decide_eq_true (Bool.and_elim_right hcond)
    intro htail
    have := List.length_tail rows
    rw [htail] at this
    simp at this
    omega
  next => exact hne

theorem tableNames_length {rows : List (List String)} {n : Nat} {hdr : Bool}
    (hne : rows ≠ []) (hlen : ∀ r ∈ rows, r.length = n) :
    (tableNames rows hdr).length = n := by
  cases rows with
  | nil => exact absurd rfl hne
  | cons r rs =>
    have hr : r.length = n := hlen r (List.mem_cons_self r rs)
    unfold tableNames
    split
    · simpa using hr
    · simpa using hr

theorem assembleTable_rect {rows : List (List String)} {n : Nat} {hdr : Bool}
    {pt : ParsedTable} (hne : rows ≠ []) (hlen : ∀ r ∈ rows, r.length = n)
    (h : assembleTable rows hdr = some pt) :
    pt.types.length = pt.columns.length ∧
    ∀ row ∈ pt.data, row.length = pt.columns.length := by
  unfold assembleTable at h
  cases ho : omapM guess_column_types (pyZipTranspose (tableData rows hdr)) with
  | none => rw [ho] at h; exact absurd h (by simp)
  | some types =>
    rw [ho, Option.map_some'] at h
    have hpt : pt = ⟨tableNames rows hdr, tableData rows hdr, types⟩ :=
      (Option.some.inj h).symm
    subst hpt
    have hdlen : ∀ r ∈ tableData rows hdr, r.length = n :=
      fun r hr => hlen r (tableData_sub rows hdr r hr)
    have h1 : types.length = n := by
      rw [omapM_length ho]
      unfold pyZipTranspose
      rw [List.length_map, List.length_range]
      exact minRowLen_const hdlen (tableData_ne_nil hne)
    have h2 : (tableNames rows hdr).length = n := tableNames_length hne hlen
    exact ⟨by rw [h1, h2], fun row hrow => by rw [h2]; exact hdlen row hrow⟩

/-- C3 (amended): the ParsedTable invariant holds exactly when the
non-empty csv records all have one common length; in general
parse_text neither pads nor truncates rows, and the number of types
equals the length of the shortest data row (see the counterexample
above). -/
theorem c3_parse_text_rectangular (text : String) (separator : Option String)
    (header : Option Bool) (n : Nat) (pt : ParsedTable)
    (hpt : parse_text text separator header = some pt)
    (hrect : ∀ r ∈ (((csvRows text (resolveSep text separator)).getD
        []).filter (fun r => !r.isEmpty)), r.length = n) :
    pt.types.length = pt.columns.length ∧
    ∀ row ∈ pt.data, row.length = pt.columns.length := by
  unfold parse_text at hpt
  split at hpt
  · have hempty : pt = ⟨[], [], []⟩ := (Option.some.inj hpt).symm
    subst hempty
    exact ⟨rfl, by simp⟩
  · cases heq : csvRows text (resolveSep text separator) with
    | none => rw [heq, obind_none] at hpt; exact absurd hpt (by simp)
    | some rows0 =>
      rw [heq, obind_some] at hpt
      rw [heq] at hrect
      simp only [Option.getD_some] at hrect
      split at hpt
      next =>
        have hempty : pt = ⟨[], [], []⟩ := (Option.some.inj hpt).symm
        subst hempty
        exact ⟨rfl, by simp⟩
      next hemp =>
        cases hh : resolveHeader (rows0.filter (fun r => !r.isEmpty)) header with
        | none => rw [hh, obind_none] at hpt; exact absurd hpt (by simp)
        | some hdr =>
          rw [hh, obind_some] at hpt
          have hne : rows0.filter (fun r => !r.isEmpty) ≠ [] := by
            intro hnil
            rw [hnil] at hemp
            simp at hemp
          exact assembleTable_rect hne hrect hpt

/-- Witness for c3_parse_text_rectangular on a rectangular 2-by-2
input with a detected header row. -/
theorem c3_parse_text_rectangular_witness :
    (⟨["a", "b"], [["1", "2"]], ["integer", "integer"]⟩ : ParsedTable).types.length =
      (⟨["a", "b"], [["1", "2"]], ["integer", "integer"]⟩ : ParsedTable).columns.length ∧
    ∀ row ∈ (⟨["a", "b"], [["1", "2"]], ["integer", "integer"]⟩ : ParsedTable).data,
      row.length =
        (⟨["a", "b"], [["1", "2"]], ["integer", "integer"]⟩ : ParsedTable).columns.length :=
  c3_parse_text_rectangular "a,b\n1,2" (some ",") none 2
    ⟨["a", "b"], [["1", "2"]], ["integer", "integer"]⟩ (by decide) (by decide)

/-- C8 (spec-modelled): parse_table's caller-supplied max_rows cap
truncates the data rows considered (not the columns) before the
column-wise processing, and changing the cap never turns a successful
parse into an error. -/
theorem c8_parse_table_max_rows (text : String) (separator : Option String)
    (header : Option Bool) (mr mr' : Nat) (hm : mr ≤ mr') :
    ((parse_table text separator mr header).isSome ↔
      (parse_table text separator mr' header).isSome) ∧
    (∀ pt pt', parse_table text separator mr header = some pt →
      parse_table text separator mr' header = some pt' →
      pt.columns = pt'.columns ∧ pt.data = pt'.data.take mr ∧
        pt.data.length ≤ mr) := by
  constructor
  · unfold parse_table
    by_cases h0 : (pyStrip text == "") = true
    · rw [if_pos h0, if_pos h0]
    · rw [if_neg h0, if_neg h0]
      cases heq : csvRows text (resolveSep text separator) with
      | none => exact Iff.rfl
      | some rows0 =>
        rw [obind_some, obind_some]
        by_cases hemp : ((rows0.filter (fun r => !r.isEmpty)).isEmpty) = true
        · rw [if_pos hemp, if_pos hemp]
        · rw [if_neg hemp, if_neg hemp]
          exact Iff.rfl
  · intro pt pt' hpt hpt'
    unfold parse_table at hpt hpt'
    by_cases h0 : (pyStrip text == "") = true
    · rw [if_pos h0] at hpt hpt'
      have h1 : pt = ⟨[], [], []⟩ := (Option.some.inj hpt).symm
      have h2 : pt' = ⟨[], [], []⟩ := (Option.some.inj hpt').symm
      subst h1; subst h2
      exact ⟨rfl, by simp, by simp⟩
    · rw [if_neg h0] at hpt hpt'
      cases heq : csvRows text (resolveSep text separator) with
      | none => rw [heq, obind_none] at hpt; exact absurd hpt (by simp)
      | some rows0 =>
        rw [heq, obind_some] at hpt
        rw [heq, obind_some] at hpt'
        by_cases hemp : ((rows0.filter (fun r => !r.isEmpty)).isEmpty) = true
        · rw [if_pos hemp] at hpt hpt'
          have h1 : pt = ⟨[], [], []⟩ := (Option.some.inj hpt).symm
          have h2 : pt' = ⟨[], [], []⟩ := (Option.some.inj hpt').symm
          subst h1; subst h2
          exact ⟨rfl, by simp, by simp⟩
        · rw [if_neg hemp] at hpt hpt'
          have h1 : pt = assembleCapped (rows0.filter (fun r => !r.isEmpty))
              (header.getD (guessHasHeaderTotal
                (rows0.filter (fun r => !r.isEmpty)))) mr :=
            (Option.some.inj hpt).symm
          have h2 : pt' = assembleCapped (rows0.filter (fun r => !r.isEmpty))
              (header.getD (guessHasHeaderTotal
                (rows0.filter (fun r => !r.isEmpty)))) mr' :=
            (Option.some.inj hpt').symm
          subst h1; subst h2
          refine ⟨rfl, ?_, ?_⟩
          · simp only [assembleCapped]
            rw [List.take_take, Nat.min_eq_left hm]
          · simp only [assembleCapped]
            exact List.length_take_le _ _

/-- Witness for c8_parse_table_max_rows: caps 1 and 2 on a 3-data-row
table with a header. -/
theorem c8_parse_table_max_rows_witness :
    (⟨["a", "b"], [["1", "2"]], ["integer", "integer"]⟩ : ParsedTable).columns =
      (⟨["a", "b"], [["1", "2"], ["3", "4"]], ["integer", "integer"]⟩ :
        ParsedTable).columns ∧
    (⟨["a", "b"], [["1", "2"]], ["integer", "integer"]⟩ : ParsedTable).data =
      (⟨["a", "b"], [["1", "2"], ["3", "4"]], ["integer", "integer"]⟩ :
        ParsedTable).data.take 1 ∧
    (⟨["a", "b"], [["1", "2"]], ["integer", "integer"]⟩ :
      ParsedTable).data.length ≤ 1 :=
  (c8_parse_table_max_rows "a,b\n1,2\n3,4\n5,6" (some ",") none 1 2
      (by decide)).2
    ⟨["a", "b"], [["1", "2"]], ["integer", "integer"]⟩
    ⟨["a", "b"], [["1", "2"], ["3", "4"]], ["integer", "integer"]⟩
    (by decide) (by decide)

/-- C9: when the parsed text yields exactly one non-empty row and the
caller forces header = true, parse_text ignores the header decision:
it synthesizes ordinal names V1..Vn and keeps the row as data (it
does not consume the row as a header). -/
theorem c9_single_row_header_override (text : String) (sep : String)
    (r : List String) (rows0 : List (List String))
    (htext : ¬ (pyStrip text == "") = true)
    (hcsv : csvRows text sep = some rows0)
    (hfilter : rows0.filter (fun row => !row.isEmpty) = [r])
    (hty : ∀ c ∈ r, (guess_column_types [c]).isSome) :
    ∃ ts, parse_text text (some sep) (some true) =
      some ⟨(List.range r.length).map (fun i => "V" ++ toString (i + 1)),
        [r], ts⟩ := by
  have hparse : parse_text text (some sep) (some true) = assembleTable [r] true := by
    unfold parse_text
    rw [if_neg htext]
    have hsep : resolveSep text (some sep) = sep := rfl
    rw [hsep, hcsv, obind_some, hfilter]
    rw [if_neg (by simp : ¬(([r] : List (List String)).isEmpty = true))]
    rw [show resolveHeader [r] (some true) = some true from rfl, obind_some]
  have hcols : pyZipTranspose (tableData [r] true) =
      (List.range r.length).map (fun i => [r.getD i ""]) := rfl
  have hall : ∀ col ∈ pyZipTranspose (tableData [r] true),
      (guess_column_types col).isSome := by
    intro col hcol
    rw [hcols] at hcol
    obtain ⟨i, hi, rfl⟩ := List.mem_map.mp hcol
    exact hty (r.getD i "") (getD_mem_of_lt (List.mem_range.mp hi))
  obtain ⟨ts, hts⟩ := omapM_isSome hall
  refine ⟨ts, ?_⟩
  rw [hparse]
  unfold assembleTable
  rw [hts, Option.map_some']
  rfl

/-- Witness for c9_single_row_header_override on the one-row input
`"7,8"`. -/
theorem c9_single_row_header_override_witness :
    ∃ ts, parse_text "7,8" (some ",") (some true) =
      some ⟨(List.range (["7", "8"] : List String).length).map
          (fun i => "V" ++ toString (i + 1)), [["7", "8"]], ts⟩ :=
  c9_single_row_header_override "7,8" "," ["7", "8"] [["7", "8"]]
    (by decide) (by decide) (by decide) (by decide)

end Datapasta
